/-
Verification of the hypr-sessions session manager (save/restore of window
layouts) against its design specification.

The Python sources are shallowly embedded: pure functions become Lean
functions over `List Char` / `List` data; Python truthiness (`x or y`),
exceptions and the `try/except` control flow are made explicit.  External
effects (the file system, the `hyprctl` query and dispatch interface, the
primary TOML parser, the wall clock) are passed in as explicit environment
data; everything the repository itself computes is translated from the
source.
-/
import Mathlib

set_option maxHeartbeats 1000000

/-- Python exceptions that the embedded code can raise.  `typerExit code`
models `typer.Exit(code)`; note that in the libraries used by the repository
`typer.Exit` derives from `click.exceptions.Exit`, which derives from
`RuntimeError`, hence from `Exception` — so a blanket `except Exception`
clause catches it like any other exception. -/
inductive PyExc where
  | typerExit (code : Int)
  | valueError (msg : String)
  | typeError (msg : String)
  | keyError (key : String)
  | attributeError (msg : String)
  | indexError (msg : String)
  | otherError (msg : String)
  deriving Repr, DecidableEq

/-- Python truthiness of an optional string: `None` and `""` are falsy. -/
def pyTruthy : Option String → Bool
  | none => false
  | some s => s ≠ ""

/-- Python `a or b` on optional strings: returns `a` unless it is falsy
(`None` or `""`), else `b` (which is returned even if itself falsy). -/
def pyOrS (a b : Option String) : Option String :=
  if pyTruthy a then a else b

/-- Python `a or b` where `a` is an optional string and `b` a plain string. -/
def pyOrStr (a : Option String) (b : String) : String :=
  match a with
  | some s => if s = "" then b else s
  | none => b

/-- Prefix test on character lists (`l₁` is a prefix of `l₂`). -/
def prefChars : List Char → List Char → Bool
  | [], _ => true
  | _ :: _, [] => false
  | a :: as_, b :: bs => a = b && prefChars as_ bs

/-- Substring test on character lists, the semantics of Python's
`needle in haystack` on strings (an empty needle matches everywhere). -/
def isSubChars (needle : List Char) : List Char → Bool
  | [] => needle.isEmpty
  | c :: rest => prefChars needle (c :: rest) || isSubChars needle rest

/-- Python `needle in haystack` on strings. -/
def strHas (hay needle : String) : Bool :=
  isSubChars needle.toList hay.toList

/-- Python `str.lower()` (ASCII case folding, as used by the sources). -/
def lowerChars (s : String) : List Char :=
  s.toList.map Char.toLower

/-- Window kinds, from `WindowKind` in `commons.py` (a `StrEnum` with the
four values "pwa", "browser", "terminal", "application"). -/
inductive WindowKind where
  | pwa
  | browser
  | terminal
  | application
  deriving Repr, DecidableEq

/-- String value of a `WindowKind`, as persisted in JSON. -/
def WindowKind.toStr : WindowKind → String
  | .pwa => "pwa"
  | .browser => "browser"
  | .terminal => "terminal"
  | .application => "application"

/-- Parse a kind string back into the enum; `WindowKind(value)` raises
`ValueError` on an unknown string. -/
def WindowKind.ofStr (s : String) : Except PyExc WindowKind :=
  if s = "pwa" then .ok .pwa
  else if s = "browser" then .ok .browser
  else if s = "terminal" then .ok .terminal
  else if s = "application" then .ok .application
  else .error (.valueError ("not a valid WindowKind: " ++ s))

/-- Saved client/window entry, from the `ClientEntry` dataclass in
`commons.py`.  The Python field `at` is written `«at»` because `at` is a
Lean keyword. -/
structure ClientEntry where
  kind : WindowKind
  class_name : String
  title : String
  workspace : Int
  floating : Bool
  «at» : List Int
  size : List Int
  monitor : Int
  app_id : Option String := none
  pid : Option Int := none
  cwd : Option String := none
  pwa_key : Option String := none
  deriving Repr, DecidableEq

/-- Construction of a `ClientEntry`, including the `__post_init__`
validation: position and size must have exactly 2 elements, a PWA entry
must have a truthy `pwa_key`, and the workspace must be positive. -/
def mkClientEntry (kind : WindowKind) (class_name title : String)
    (workspace : Int) (floating : Bool) (at_pos size : List Int)
    (monitor : Int) (app_id : Option String) (pid : Option Int)
    (cwd : Option String) (pwa_key : Option String) :
    Except PyExc ClientEntry :=
  if at_pos.length ≠ 2 then
    .error (.valueError "Position 'at' must be [x, y]")
  else if size.length ≠ 2 then
    .error (.valueError "Size must be [width, height]")
  else if kind = .pwa ∧ ¬ pyTruthy pwa_key then
    .error (.valueError "PWA entries must have a pwa_key")
  else if workspace ≤ 0 then
    .error (.valueError "Workspace must be positive")
  else
    .ok { kind, class_name, title, workspace, floating, «at» := at_pos,
          size, monitor, app_id, pid, cwd, pwa_key }

/-- JSON values occurring in a serialized `ClientEntry` / snapshot. -/
inductive Jval where
  | str (s : String)
  | int (n : Int)
  | bool (b : Bool)
  | intList (l : List Int)
  | null
  deriving Repr, DecidableEq

/-- JSON object as an association list (Python dicts preserve insertion
order; keys are unique in the dicts the program builds). -/
abbrev Jobj := List (String × Jval)

/-- Lookup in a JSON object, Python `data.get(key)` (first matching key). -/
def Jobj.get (d : Jobj) (key : String) : Option Jval :=
  (d.find? (fun kv => kv.1 = key)).map (·.2)

/-- Serialization of a `ClientEntry`, from `ClientEntry.to_dict`: the eight
mandatory fields in source order, then each optional field only when it is
not `None`. -/
def ClientEntry.to_dict (e : ClientEntry) : Jobj :=
  [("class", .str e.class_name),
   ("title", .str e.title),
   ("workspace", .int e.workspace),
   ("floating", .bool e.floating),
   ("at", .intList e.«at»),
   ("size", .intList e.size),
   ("monitor", .int e.monitor),
   ("kind", .str e.kind.toStr)]
  ++ (match e.app_id with | some v => [("app_id", Jval.str v)] | none => [])
  ++ (match e.pid with | some v => [("pid", Jval.int v)] | none => [])
  ++ (match e.cwd with | some v => [("cwd", Jval.str v)] | none => [])
  ++ (match e.pwa_key with | some v => [("pwa_key", Jval.str v)] | none => [])

/-- Read a mandatory string field; `data[key]` raises `KeyError` when the
key is absent.  (Python would accept a value of any type here; the typed
embedding reports a `TypeError` for a value of the wrong shape, a case none
of the program's own serialized objects produce.) -/
def Jobj.reqStr (d : Jobj) (key : String) : Except PyExc String :=
  match d.get key with
  | some (.str s) => .ok s
  | some _ => .error (.typeError key)
  | none => .error (.keyError key)

/-- Read a mandatory integer field. -/
def Jobj.reqInt (d : Jobj) (key : String) : Except PyExc Int :=
  match d.get key with
  | some (.int n) => .ok n
  | some _ => .error (.typeError key)
  | none => .error (.keyError key)

/-- Read a mandatory boolean field. -/
def Jobj.reqBool (d : Jobj) (key : String) : Except PyExc Bool :=
  match d.get key with
  | some (.bool b) => .ok b
  | some _ => .error (.typeError key)
  | none => .error (.keyError key)

/-- Read a mandatory integer-list field. -/
def Jobj.reqIntList (d : Jobj) (key : String) : Except PyExc (List Int) :=
  match d.get key with
  | some (.intList l) => .ok l
  | some _ => .error (.typeError key)
  | none => .error (.keyError key)

/-- Read an optional string field; `data.get(key)` yields `None` both for a
missing key and for an explicit JSON `null`. -/
def Jobj.optStr (d : Jobj) (key : String) : Except PyExc (Option String) :=
  match d.get key with
  | some (.str s) => .ok (some s)
  | some .null => .ok none
  | some _ => .error (.typeError key)
  | none => .ok none

/-- Read an optional integer field. -/
def Jobj.optInt (d : Jobj) (key : String) : Except PyExc (Option Int) :=
  match d.get key with
  | some (.int n) => .ok (some n)
  | some .null => .ok none
  | some _ => .error (.typeError key)
  | none => .ok none

/-- Deserialization, from `ClientEntry.from_dict`: reads every field and
then constructs the entry (running the `__post_init__` validation). -/
def ClientEntry.from_dict (d : Jobj) : Except PyExc ClientEntry := do
  let kindStr ← d.reqStr "kind"
  let kind ← WindowKind.ofStr kindStr
  let class_name ← d.reqStr "class"
  let title ← d.reqStr "title"
  let workspace ← d.reqInt "workspace"
  let floating ← d.reqBool "floating"
  let at_pos ← d.reqIntList "at"
  let size ← d.reqIntList "size"
  let monitor ← d.reqInt "monitor"
  let app_id ← d.optStr "app_id"
  let pid ← d.optInt "pid"
  let cwd ← d.optStr "cwd"
  let pwa_key ← d.optStr "pwa_key"
  mkClientEntry kind class_name title workspace floating at_pos size monitor
    app_id pid cwd pwa_key

/-- Validity of a `ClientEntry`: exactly the conditions under which the
Python constructor accepts it (every live Python `ClientEntry` satisfies
this, since `__post_init__` rejects everything else). -/
def ClientEntry.valid (e : ClientEntry) : Bool :=
  e.«at».length = 2 && e.size.length = 2 &&
    !(e.kind = .pwa && !pyTruthy e.pwa_key) && 0 < e.workspace

/-- Value in a loaded command map: either a command string or a sub-table
(the `[pwa]` / `[apps]` sections). -/
inductive TomlVal where
  | str (s : String)
  | table (kvs : List (String × String))
  deriving Repr, DecidableEq

/-- Loaded command map: a top-level dict in insertion order. -/
abbrev TomlMap := List (String × TomlVal)

/-- Drop characters satisfying `p` from both ends of a character list
(Python `str.strip`). -/
def stripEnds (p : Char → Bool) (l : List Char) : List Char :=
  ((l.dropWhile p).reverse.dropWhile p).reverse

/-- Python `str.strip()` — strip whitespace from both ends. -/
def pyStrip (s : String) : String :=
  String.mk (stripEnds Char.isWhitespace s.toList)

/-- Python `str.strip(chars)` — strip any of the given characters from both
ends. -/
def pyStripChars (cs : List Char) (s : String) : String :=
  String.mk (stripEnds (fun c => c ∈ cs) s.toList)

/-- Python `str.startswith`. -/
def strStarts (s pre : String) : Bool :=
  prefChars pre.toList s.toList

/-- Python `str.endswith`. -/
def strEnds (s suf : String) : Bool :=
  prefChars suf.toList.reverse s.toList.reverse

/-- Python `ln.split("=", 1)`: the part before the first `=` and the part
after it. -/
def splitEq (l : List Char) : List Char × List Char :=
  (l.takeWhile (· ≠ '='), (l.dropWhile (· ≠ '=')).drop 1)

/-- Python dict assignment `d[k] = v` on a string-valued dict: replace the
value in place if the key exists, else append. -/
def dictSet (kvs : List (String × String)) (k v : String) :
    List (String × String) :=
  if (kvs.find? (fun kv => kv.1 = k)).isSome then
    kvs.map (fun kv => if kv.1 = k then (k, v) else kv)
  else kvs ++ [(k, v)]

/-- Python `data.setdefault(sec, {})` on the fallback parser's state. -/
def setdefaultTable (data : List (String × List (String × String)))
    (sec : String) : List (String × List (String × String)) :=
  if (data.find? (fun kv => kv.1 = sec)).isSome then data
  else data ++ [(sec, [])]

/-- Python `data[sec][k] = v` on the fallback parser's state (`sec` is
always present, created by `setdefault`). -/
def setInSection (data : List (String × List (String × String)))
    (sec k v : String) : List (String × List (String × String)) :=
  data.map (fun kv => if kv.1 = sec then (kv.1, dictSet kv.2 k v) else kv)

/-- Line loop of the ultra-basic fallback parser in `read_toml`: supports
`[section]` headers followed by `key = "value"` lines; everything else —
blank lines, comments, and any malformed line — is skipped. -/
def tomlFallbackGo : List String → List (String × List (String × String)) →
    Option String → List (String × List (String × String))
  | [], data, _ => data
  | line :: rest, data, sec =>
    let ln := pyStrip line
    if ln = "" || strStarts ln "#" then tomlFallbackGo rest data sec
    else if strStarts ln "[" && strEnds ln "]" then
      let s := pyStripChars ['[', ']'] ln
      tomlFallbackGo rest (setdefaultTable data s) (some s)
    else if strHas ln "=" then
      match sec with
      | some s =>
        let (k, v) := splitEq ln.toList
        let k' := pyStripChars ['"'] (pyStrip (String.mk k))
        let v' := pyStripChars ['"'] (pyStrip (String.mk v))
        tomlFallbackGo rest (setInSection data s k' v') sec
      | none => tomlFallbackGo rest data sec
    else tomlFallbackGo rest data sec

/-- Fallback parse of the command-map file contents (given as lines). -/
def tomlFallback (lines : List String) : TomlMap :=
  (tomlFallbackGo lines [] none).map (fun kv => (kv.1, TomlVal.table kv.2))

/-- Embedding of `read_toml`: the primary parser (`tomllib`, an external
collaborator) is passed in as `primary` (`none` models any exception it
raises, including a missing file); on failure the fallback parser runs over
the file's lines when the file exists, and an absent file yields the empty
mapping.  `read_toml` itself never raises for a readable file. -/
def read_toml (primary : Option TomlMap) (fileExists : Bool)
    (lines : List String) : TomlMap :=
  match primary with
  | some d => d
  | none => if fileExists then tomlFallback lines else []

/-- Stable insertion for the length-descending sort: an element is placed
before the first element that is not longer, so equal-length keys keep
their original relative order (Python's `sorted` is stable). -/
def insLen (x : String) : List String → List String
  | [] => [x]
  | y :: ys => if x.length < y.length then y :: insLen x ys else x :: y :: ys

/-- Model of `sorted(keys, key=len, reverse=True)`. -/
def sortLenDesc : List String → List String
  | [] => []
  | x :: xs => insLen x (sortLenDesc xs)

/-- Embedding of `pwa_key_for`: no key for a falsy title; otherwise the
keys are tried longest-first (`sorted(keys, key=len, reverse=True)`) and
the first whose lowercased form occurs in the lowercased title wins. -/
def pwa_key_for (title : Option String) (pwaKeys : List String) :
    Option String :=
  match title with
  | none => none
  | some t =>
    if t = "" then none
    else (sortLenDesc pwaKeys).find?
      (fun key => isSubChars (lowerChars key) (lowerChars t))

/-- Uppercase hex digit. -/
def hexDigit (n : Nat) : Char :=
  if n < 10 then Char.ofNat ('0'.toNat + n) else Char.ofNat ('A'.toNat + (n - 10))

/-- Embedding of the `quote` the sources import — `email.quoprimime.quote`,
not `shlex.quote`: `quote(c)` is `_QUOPRI_MAP[ord(c)]`, i.e. the
quoted-printable escape `"=%02X"` of a single character.  `ord` raises
`TypeError` for a string whose length is not 1, and `_QUOPRI_MAP` has only
256 entries, so a larger code point raises `IndexError`. -/
def quote (c : String) : Except PyExc String :=
  match c.toList with
  | [ch] =>
    if ch.toNat < 256 then
      .ok (String.mk ['=', hexDigit (ch.toNat / 16), hexDigit (ch.toNat % 16)])
    else .error (.indexError "_QUOPRI_MAP")
  | _ => .error (.typeError "ord() expected a character, but string found")

/-- Replacement loop for Python `str.replace` (all non-overlapping
occurrences, left to right).  The fuel argument, instantiated with the
haystack length, only makes the recursion structural; each step consumes at
least one character when the pattern is non-empty. -/
def replGo (pat rep : List Char) : List Char → Nat → List Char
  | [], _ => []
  | c :: rest, 0 => c :: rest
  | c :: rest, f + 1 =>
    match pat, prefChars pat (c :: rest) with
    | _ :: ps, true => rep ++ replGo pat rep (rest.drop ps.length) (f - ps.length)
    | _, _ => c :: replGo pat rep rest f

/-- Python `s.replace(pat, rep)` (as used in `launch`, where `pat` is never
empty). -/
def replaceAll (s pat rep : String) : String :=
  String.mk (replGo pat.toList rep.toList s.toList s.toList.length)

/-- Embedding of `launch`: substitute `{cwd}` with the quoted working
directory (`entry.cwd or os.path.expanduser("~")`, with Python truthiness)
and `{url}` with the quoted empty string, then dispatch
`hyprctl dispatch exec -- cmd`.  The returned string is the command text
handed to the dispatcher; a raised exception propagates to the caller. -/
def launch (cmd : String) (e : ClientEntry) (home : String) :
    Except PyExc String := do
  let cmd1 ←
    if strHas cmd "{cwd}" then do
      let q ← quote (pyOrStr e.cwd home)
      pure (replaceAll cmd "{cwd}" q)
    else pure cmd
  let cmd2 ←
    if strHas cmd1 "{url}" then do
      let q ← quote ""
      pure (replaceAll cmd1 "{url}" q)
    else pure cmd1
  pure cmd2

/-- Embedding of `best_key`: `entry.app_id or entry.class_name or
"unknown"` with Python truthiness. -/
def best_key (e : ClientEntry) : String :=
  pyOrStr e.app_id (pyOrStr (some e.class_name) "unknown")

/-- Raw window record as returned by the window manager's JSON query
(`hyprctl -j clients`); every field is optional, as `dict.get` yields
`None` for a missing key.  The dict key `class` is the field `cls`. -/
structure HyprClient where
  app_id : Option String := none
  cls : Option String := none
  initialClass : Option String := none
  title : Option String := none
  floating : Option Bool := none
  address : Option String := none
  pid : Option Int := none
  mapped : Option Bool := none
  workspace_id : Option Int := none
  at_pos : Option (List Int) := none
  size : Option (List Int) := none
  monitor : Option Int := none
  deriving Repr, DecidableEq

/-- Identity key of an observed window:
`c.get("app_id") or c.get("class") or c.get("initialClass")`. -/
def candKey (c : HyprClient) : Option String :=
  pyOrS c.app_id (pyOrS c.cls c.initialClass)

/-- Score of a candidate window for a saved entry, from the body of
`match_window`: base 1 (the identity key already matched), +2 when both
lowercased titles are non-empty and one contains the other, +1 when the
candidate's `floating` field equals the saved flag. -/
def score (e : ClientEntry) (c : HyprClient) : Nat :=
  let tl := lowerChars e.title
  let ct := lowerChars (pyOrStr c.title "")
  1 + (if tl ≠ [] ∧ ct ≠ [] ∧ (isSubChars tl ct || isSubChars ct tl) then 2 else 0)
    + (if c.floating = some e.floating then 1 else 0)

/-- Scoring loop of `match_window` over `enumerate(now)`: skip indices not
in `unmatched` or whose key differs, and keep the first candidate with a
strictly greater score than the best so far (initially `-1`). -/
def mwLoop (e : ClientEntry) (key : String) (unmatched : List Nat) :
    Nat → List HyprClient → Option (Nat × HyprClient) × Int →
    Option (Nat × HyprClient) × Int
  | _, [], acc => acc
  | i, c :: rest, (best, bestScore) =>
    if i ∈ unmatched then
      if candKey c = some key then
        if bestScore < (score e c : Int) then
          mwLoop e key unmatched (i + 1) rest (some (i, c), (score e c : Int))
        else mwLoop e key unmatched (i + 1) rest (best, bestScore)
      else mwLoop e key unmatched (i + 1) rest (best, bestScore)
    else mwLoop e key unmatched (i + 1) rest (best, bestScore)

/-- Fallback loop of `match_window`: the first unclaimed window with the
same identity key, without scoring. -/
def mwFallback (key : String) (unmatched : List Nat) :
    Nat → List HyprClient → Option (Nat × HyprClient)
  | _, [] => none
  | i, c :: rest =>
    if i ∈ unmatched ∧ candKey c = some key then some (i, c)
    else mwFallback key unmatched (i + 1) rest

/-- Embedding of `match_window`.  The Python set of unclaimed indices is
modelled as a list of indices (only membership and removal are used). -/
def match_window (e : ClientEntry) (now : List HyprClient)
    (unmatched : List Nat) : Option (Nat × HyprClient) :=
  let key := best_key e
  match mwLoop e key unmatched 0 now (none, -1) with
  | (some b, _) => some b
  | (none, _) => mwFallback key unmatched 0 now

/-- Number of saved entries wanting a given identity key
(`want_counts` in `wait_for_windows`). -/
def wantCount (desired : List ClientEntry) (k : String) : Nat :=
  desired.countP (fun e => best_key e == k)

/-- Number of observed windows carrying a given identity key
(`got_counts` in `wait_for_windows`). -/
def gotCount (now : List HyprClient) (k : String) : Nat :=
  now.countP (fun c => candKey c == some k)

/-- Readiness check of the waiter: every identity key wanted by the saved
session has at least as many observed windows. -/
def satisfied (desired : List ClientEntry) (now : List HyprClient) : Bool :=
  desired.all (fun e => wantCount desired (best_key e) ≤ gotCount now (best_key e))

/-- Poll loop of `wait_for_windows`.  Time is discrete: one poll per time
unit (`time.sleep(1)`), `obs t` is the client list the window manager
reports at time `t` (an exception from `hyprctl` is already modelled there
as `[]`, per `current_clients`).  The fuel argument, instantiated with
`deadline - t`, makes the clock-bounded loop structurally recursive; its
zero case is unreachable from `wait_for_windows`. -/
def wait_go (obs : Nat → List HyprClient) (desired : List ClientEntry)
    (deadline : Nat) : Nat → Nat → List HyprClient → Nat × List HyprClient
  | fuel, t, prev =>
    if t < deadline then
      let now := obs t
      if satisfied desired now then (t, now)
      else
        match fuel with
        | 0 => (t, prev)
        | f + 1 => wait_go obs desired deadline f (t + 1) now
    else (t, prev)

/-- Embedding of `wait_for_windows`, started at time 0 with `now = []`.
Python returns only the last observed list; the return time is kept as a
ghost first component for the termination statement. -/
def wait_for_windows (obs : Nat → List HyprClient)
    (desired : List ClientEntry) (deadline : Nat) : Nat × List HyprClient :=
  wait_go obs desired deadline deadline 0 []

/-- Lookup of a top-level key in a loaded command map. -/
def TomlMap.lookupVal (m : TomlMap) (k : String) : Option TomlVal :=
  (m.find? (fun kv => kv.1 = k)).map (·.2)

/-- Python truthiness of a command-map value: the empty string and the
empty table are falsy. -/
def tomlTruthy : TomlVal → Bool
  | .str s => s ≠ ""
  | .table t => ¬ t.isEmpty

/-- Python `appmap.get(name, {}).get(key)`: reading a sub-table of the
command map.  A missing sub-table defaults to `{}`; if the top-level value
is a plain string, the chained `.get` raises `AttributeError`. -/
def getSubTable (m : TomlMap) (name : String) :
    Except PyExc (List (String × String)) :=
  match m.lookupVal name with
  | none => .ok []
  | some (.table t) => .ok t
  | some (.str _) => .error (.attributeError "str object has no attribute get")

/-- Command resolution for one entry, from
`launch_applications_with_logging`: the `pwa` sub-table for a PWA entry
with a truthy key, the `apps` sub-table for an application or terminal
entry; if the result is falsy, fall back to the first of
`(entry.class_name, entry.app_id)` that is truthy and present as a flat
top-level key.  `none` means no (truthy) command resolved — the entry is
skipped with a warning. -/
def resolveCmd (e : ClientEntry) (appmap : TomlMap) :
    Except PyExc (Option TomlVal) := do
  let cmd1 : Option String ←
    if e.kind = .pwa ∧ pyTruthy e.pwa_key then do
      let t ← getSubTable appmap "pwa"
      pure ((t.find? (fun kv => kv.1 = e.pwa_key.getD "")).map (·.2))
    else if e.kind = .application ∨ e.kind = .terminal then do
      let t ← getSubTable appmap "apps"
      pure ((t.find? (fun kv => kv.1 = e.class_name)).map (·.2))
    else pure none
  let cmd2 : Option TomlVal :=
    if pyTruthy cmd1 then cmd1.map TomlVal.str
    else
      -- fallback loop: break at the first alt that is truthy and present,
      -- regardless of the value found there
      if e.class_name ≠ "" ∧ (appmap.lookupVal e.class_name).isSome then
        appmap.lookupVal e.class_name
      else
        match e.app_id with
        | some a =>
          if a ≠ "" ∧ (appmap.lookupVal a).isSome then appmap.lookupVal a
          else cmd1.map TomlVal.str
        | none => cmd1.map TomlVal.str
  match cmd2 with
  | some v => pure (if tomlTruthy v then some v else none)
  | none => pure none

/-- Launch loop of `launch_applications_with_logging`: resolve each entry,
skip unresolved ones, dispatch the rest through `launch` and count them.
The list of dispatched command strings is kept as a ghost result.  A
command that resolved to a sub-table would reach `subprocess.Popen` with a
dict argument, a `TypeError`. -/
def launchAppsGo (appmap : TomlMap) (home : String) :
    List ClientEntry → Nat → List String → Except PyExc (Nat × List String)
  | [], launched, dispatched => .ok (launched, dispatched.reverse)
  | e :: rest, launched, dispatched => do
    match ← resolveCmd e appmap with
    | none => launchAppsGo appmap home rest launched dispatched
    | some (.str s) => do
      let d ← launch s e home
      launchAppsGo appmap home rest (launched + 1) (d :: dispatched)
    | some (.table _) => .error (.typeError "expected str, bytes or os.PathLike object, not dict")

/-- Embedding of `launch_applications_with_logging` (the variant
`restore_session` calls). -/
def launch_applications_with_logging (desired : List ClientEntry)
    (appmap : TomlMap) (home : String) : Except PyExc (Nat × List String) :=
  launchAppsGo appmap home desired 0 []

/-- Placement loop of `place_windows`: per saved entry, find a window via
`match_window`; on a match remove its index from the unclaimed set and
count it; otherwise warn and skip.  The dispatched focus/workspace/floating
and geometry commands are fire-and-forget side effects with no observable
result, so they are not recorded; the list of claimed indices (in entry
order) is kept as a ghost result. -/
def placeGo (now : List HyprClient) :
    List ClientEntry → List Nat → Nat → List Nat → Nat × List Nat × List Nat
  | [], unmatched, placed, claimed => (placed, unmatched, claimed.reverse)
  | e :: rest, unmatched, placed, claimed =>
    match match_window e now unmatched with
    | none => placeGo now rest unmatched placed claimed
    | some (idx, _) =>
      placeGo now rest (unmatched.filter (fun j => j ≠ idx)) (placed + 1)
        (idx :: claimed)

/-- Run of `place_windows` with its ghost outputs: placed count, the final
unclaimed set and the claimed indices in entry order. -/
def place_trace (desired : List ClientEntry) (now : List HyprClient) :
    Nat × List Nat × List Nat :=
  placeGo now desired (List.range now.length) 0 []

/-- Embedding of `place_windows`: the returned placed count. -/
def place_windows (desired : List ClientEntry) (now : List HyprClient) : Nat :=
  (place_trace desired now).1

/-- Python truthiness of an optional integer (`None` and `0` are falsy). -/
def pyTruthyInt : Option Int → Bool
  | none => false
  | some n => n ≠ 0

/-- Browser-engine class pattern of `_create_client_entry`:
`re.match(r"^(chromium|google-chrome|chrome-.*__-Default)$", app_class)`.
The third alternative matches a class that starts with `chrome-`, ends with
`__-Default` and is long enough for the two fixed parts not to overlap. -/
def chromeClass (s : String) : Bool :=
  s = "chromium" || s = "google-chrome" ||
    (strStarts s "chrome-" && strEnds s "__-Default" && 17 ≤ s.length)

/-- Embedding of `_get_terminal_cwd`: for a truthy PID whose `class` field
is one of the fixed terminal classes, resolve the working directory through
process-table introspection; `procCwd` is that external capability, with
`none` covering every swallowed failure. -/
def get_terminal_cwd (client : HyprClient) (procCwd : Int → Option String) :
    Option String :=
  if pyTruthyInt client.pid ∧
      (client.cls = some "Alacritty" ∨ client.cls = some "foot") then
    procCwd (client.pid.getD 0)
  else none

/-- Embedding of `_create_client_entry` (the Window Classifier): class from
`class` falling back to `initialClass`, workspace id with falsy values
replaced by 1, browser/PWA detection by class pattern plus key resolution,
terminal detection by a resolved cwd, and construction of the validated
entry (which may raise). -/
def create_client_entry (client : HyprClient) (pwaKeys : List String)
    (procCwd : Int → Option String) : Except PyExc ClientEntry :=
  let app_class := pyOrS client.cls client.initialClass
  let title := pyOrStr client.title ""
  let workspace_id : Int :=
    match client.workspace_id with
    | some n => if n = 0 then 1 else n
    | none => 1
  let is_floating := client.floating.getD false
  let cwd := get_terminal_cwd client procCwd
  let (kind, pwa_key) : WindowKind × Option String :=
    if pyTruthy app_class ∧ chromeClass (app_class.getD "") then
      match pwa_key_for app_class pwaKeys with
      | some key => (.pwa, some key)
      | none => (.browser, none)
    else if pyTruthy cwd then (.terminal, none)
    else (.application, none)
  mkClientEntry kind (pyOrStr app_class "") title workspace_id is_floating
    (match client.at_pos with | some l => if l = [] then [0, 0] else l | none => [0, 0])
    (match client.size with | some l => if l = [] then [100, 100] else l | none => [100, 100])
    (client.monitor.getD 0) client.app_id client.pid cwd pwa_key

/-- Embedding of `_should_check_mapping`: falsy classes and the fixed
system-window classes are exempt from the mapping check. -/
def should_check_mapping (app_class : Option String) : Bool :=
  if ¬ pyTruthy app_class then false
  else
    let c := app_class.getD ""
    ¬ (c = "" ∨ c = "hyprland" ∨ c = "Hyprland" ∨ c = "hyprpaper" ∨
       c = "waybar" ∨ c = "rofi" ∨ c = "dunst")

/-- Python `set.add`, on a set modelled as a duplicate-free list. -/
def insertSet (l : List String) (s : String) : List String :=
  if s ∈ l then l else l ++ [s]

/-- Client loop of `_process_clients`: skip windows marked unmapped,
classify the rest, and accumulate identities without a command mapping
(web-app key against the `pwa` table, class against the `apps` table;
browsers are exempt). -/
def processClientsGo (pwaKeys appKeys : List String)
    (procCwd : Int → Option String) :
    List HyprClient → List ClientEntry → List String →
    Except PyExc (List ClientEntry × List String)
  | [], saved, missing => .ok (saved.reverse, missing)
  | client :: rest, saved, missing => do
    if ¬ (client.mapped.getD true) then
      processClientsGo pwaKeys appKeys procCwd rest saved missing
    else do
      let entry ← create_client_entry client pwaKeys procCwd
      let app_class := pyOrS client.cls client.initialClass
      let missing' :=
        if should_check_mapping app_class then
          match entry.kind with
          | .pwa =>
            match entry.pwa_key with
            | some k => if k ≠ "" ∧ k ∉ pwaKeys then insertSet missing k else missing
            | none => missing
          | .browser => missing
          | .application | .terminal =>
            if pyTruthy app_class ∧ (app_class.getD "") ∉ appKeys then
              insertSet missing (app_class.getD "")
            else missing
        else missing
      processClientsGo pwaKeys appKeys procCwd rest (entry :: saved) missing'

/-- Embedding of `_process_clients`. -/
def process_clients (clients : List HyprClient) (pwaKeys appKeys : List String)
    (procCwd : Int → Option String) :
    Except PyExc (List ClientEntry × List String) :=
  processClientsGo pwaKeys appKeys procCwd clients [] []

/-- Exit code `os.EX_OK`. -/
def EX_OK : Int := 0

/-- Exit code `os.EX_SOFTWARE` (70 on Linux), the code both commands use
for their error path. -/
def EX_SOFTWARE : Int := 70

/-- External inputs of one `restore_session` invocation.  `jsonLoad` is the
result of `json.load` followed by `snapshot.get("clients", [])` (an
exception models a missing/corrupt file body); `tomlPrimary`,
`tomlFileExists` and `tomlLines` feed `read_toml`; `obs` is the window
manager's client list at each poll tick; `home` is `os.path.expanduser("~")`. -/
structure RestoreEnv where
  inputExists : Bool
  jsonLoad : Except PyExc (List Jobj)
  tomlPrimary : Option TomlMap
  tomlFileExists : Bool
  tomlLines : List String
  dryRun : Bool
  obs : Nat → List HyprClient
  home : String

/-- Body of the `try` block of `restore_session`.  The result type `Empty`
records that this block never falls through: every path ends in a raise —
on full success the final `raise typer.Exit(EX_OK)`. -/
def restoreBody (env : RestoreEnv) : Except PyExc Empty := do
  let clientData ← env.jsonLoad
  if clientData.isEmpty then
    throw (.typerExit EX_SOFTWARE)
  let desired ← clientData.mapM ClientEntry.from_dict
  let appmap := read_toml env.tomlPrimary env.tomlFileExists env.tomlLines
  if env.dryRun then
    pure ()  -- _show_dry_run_preview only prints
  else do
    let _launched ← launch_applications_with_logging desired appmap env.home
    let now := (wait_for_windows env.obs desired 30).2
    let _placed := place_windows desired now
    pure ()
  throw (.typerExit EX_OK)

/-- Embedding of `restore_session`'s exit behaviour.  A missing input file
raises `typer.Exit(EX_SOFTWARE)` outside the `try` block.  Inside it, the
`except Exception` clause catches every exception — including the
success-path `typer.Exit(EX_OK)`, since `typer.Exit` derives from
`RuntimeError` — and replaces it with `typer.Exit(EX_SOFTWARE)`. -/
def restore_session (env : RestoreEnv) : Int :=
  if ¬ env.inputExists then EX_SOFTWARE
  else
    match restoreBody env with
    | .error _ => EX_SOFTWARE
    | .ok x => nomatch x

/-- External inputs of one `save_session` invocation: the TOML inputs for
`read_toml`, the two `hyprctl -j` query results, the process-table cwd
capability, and the result of writing the snapshot file. -/
structure SaveEnv where
  tomlPrimary : Option TomlMap
  tomlFileExists : Bool
  tomlLines : List String
  clientsQ : Except PyExc (List HyprClient)
  workspacesQ : Except PyExc (List Jobj)
  procCwd : Int → Option String
  writeResult : Except PyExc Unit
  dryRun : Bool

/-- Body of the `try` block of `save_session`; as in `restoreBody`, every
path ends in a raise, the success path in `raise typer.Exit(EX_OK)`. -/
def saveBody (env : SaveEnv) : Except PyExc Empty := do
  let cfg := read_toml env.tomlPrimary env.tomlFileExists env.tomlLines
  let pwaKeys :=
    match cfg.lookupVal "pwa" with
    | some (.table t) => t.map (·.1)
    | _ => []
  let appKeys :=
    match cfg.lookupVal "apps" with
    | some (.table t) => t.map (·.1)
    | _ => []
  let clients ← env.clientsQ
  let _workspaces ← env.workspacesQ
  let (saved, _missing) ← process_clients clients pwaKeys appKeys env.procCwd
  let _clientDicts := saved.map ClientEntry.to_dict
  if env.dryRun then
    pure ()  -- preview printing only
  else
    env.writeResult
  throw (.typerExit EX_OK)

/-- Embedding of `save_session`'s exit behaviour: same `try`/`except`
shape as `restore_session`. -/
def save_session (env : SaveEnv) : Int :=
  match saveBody env with
  | .error _ => EX_SOFTWARE
  | .ok x => nomatch x


/-- The kind tag round-trips through its string value. -/
theorem WindowKind.ofStr_toStr (k : WindowKind) : WindowKind.ofStr k.toStr = .ok k := by
  cases k <;> rfl

/-- Sample well-formed application entry. -/
def entryGood : ClientEntry :=
  { kind := .application, class_name := "x", title := "t", workspace := 1,
    floating := false, «at» := [1, 2], size := [4, 5], monitor := 0 }

/-- Browser entry carrying a stray web-app key. -/
def entryBrowserKey : ClientEntry :=
  { kind := .browser, class_name := "firefox", title := "t", workspace := 1,
    floating := false, «at» := [0, 0], size := [0, 0], monitor := 0,
    pwa_key := some "gh" }

/-- PWA entry with a key. -/
def entryPwaGh : ClientEntry :=
  { kind := .pwa, class_name := "chromium", title := "t", workspace := 1,
    floating := false, «at» := [0, 0], size := [0, 0], monitor := 0,
    pwa_key := some "gh" }

/-- C6.  Construction validates position, size and workspace: every input
whose position or size list does not have exactly 2 elements or whose
workspace is below 1 is rejected, and every successfully constructed entry
has 2-element position and size and workspace ≥ 1, carrying exactly the
given values (no silent coercion). -/
theorem client_entry_rejects_malformed :
    (∀ kind class_name title workspace floating at_pos size monitor
        app_id pid cwd pwa_key,
       (at_pos.length ≠ 2 ∨ size.length ≠ 2 ∨ workspace < 1) →
       (mkClientEntry kind class_name title workspace floating at_pos size
         monitor app_id pid cwd pwa_key).isOk = false)
  ∧ (∀ kind class_name title workspace floating at_pos size monitor
        app_id pid cwd pwa_key e,
       mkClientEntry kind class_name title workspace floating at_pos size
         monitor app_id pid cwd pwa_key = .ok e →
       e.«at».length = 2 ∧ e.size.length = 2 ∧ (1 : Int) ≤ e.workspace ∧
         e.«at» = at_pos ∧ e.size = size ∧ e.workspace = workspace) := by
  constructor
  · intro kind class_name title workspace floating at_pos size monitor
      app_id pid cwd pwa_key h
    simp only [mkClientEntry]
    split_ifs with h1 h2 h3 h4
    · rfl
    · rfl
    · rfl
    · rfl
    · exact absurd h (by push_neg; omega)
  · intro kind class_name title workspace floating at_pos size monitor
      app_id pid cwd pwa_key e hmk
    simp only [mkClientEntry] at hmk
    split_ifs at hmk with h1 h2 h3 h4
    cases hmk
    exact show at_pos.length = 2 ∧ size.length = 2 ∧ (1 : Int) ≤ workspace ∧
        at_pos = at_pos ∧ size = size ∧ workspace = workspace from
      ⟨by omega, by omega, by omega, rfl, rfl, rfl⟩

/-- C6 witness: a 3-element position is rejected; a well-formed input is
accepted with its data intact. -/
theorem client_entry_rejects_malformed_witness :
    (mkClientEntry .application "x" "t" 1 false [1, 2, 3] [4, 5] 0
      none none none none).isOk = false ∧ (1 : Int) ≤ entryGood.workspace := by
  refine ⟨client_entry_rejects_malformed.1 .application "x" "t" 1 false
    [1, 2, 3] [4, 5] 0 none none none none (Or.inl (by decide)), ?_⟩
  exact (client_entry_rejects_malformed.2 .application "x" "t" 1 false
    [1, 2] [4, 5] 0 none none none none entryGood rfl).2.2.1

/-- C7 counterexample: a non-WebApp entry carrying a non-empty web-app key
is accepted by construction, so the right-to-left direction of the claimed
biconditional is not a construction-time error. -/
theorem pwa_key_biconditional_fails :
    mkClientEntry .browser "firefox" "t" 1 false [0, 0] [0, 0] 0
      none none none (some "gh") = .ok entryBrowserKey ∧
    entryBrowserKey.kind ≠ .pwa ∧ entryBrowserKey.pwa_key = some "gh" := by
  exact ⟨rfl, by decide, rfl⟩

/-- C7 amended.  Only the forward direction is enforced: a WebApp entry
always carries a truthy (present, non-empty) key and a WebApp entry
without one is rejected, while a non-WebApp entry with any key value is
accepted whenever the length and workspace invariants hold. -/
theorem pwa_key_forward_only :
    (∀ kind class_name title workspace floating at_pos size monitor
        app_id pid cwd pwa_key e,
       mkClientEntry kind class_name title workspace floating at_pos size
         monitor app_id pid cwd pwa_key = .ok e →
       e.kind = .pwa → pyTruthy e.pwa_key = true)
  ∧ (∀ class_name title workspace floating at_pos size monitor
        app_id pid cwd pwa_key,
       ¬ pyTruthy pwa_key = true →
       (mkClientEntry .pwa class_name title workspace floating at_pos size
         monitor app_id pid cwd pwa_key).isOk = false)
  ∧ (∀ kind class_name title workspace floating at_pos size monitor
        app_id pid cwd pwa_key,
       kind ≠ .pwa → at_pos.length = 2 → size.length = 2 →
       (1 : Int) ≤ workspace →
       (mkClientEntry kind class_name title workspace floating at_pos size
         monitor app_id pid cwd pwa_key).isOk = true) := by
  refine ⟨?_, ?_, ?_⟩
  · intro kind class_name title workspace floating at_pos size monitor
      app_id pid cwd pwa_key e hmk hk
    simp only [mkClientEntry] at hmk
    split_ifs at hmk with h1 h2 h3 h4
    cases hmk
    show pyTruthy pwa_key = true
    by_cases hp : pyTruthy pwa_key = true
    · exact hp
    · exact absurd ⟨hk, hp⟩ h3
  · intro class_name title workspace floating at_pos size monitor
      app_id pid cwd pwa_key hpk
    simp only [mkClientEntry]
    split_ifs with h1 h2 h3 h4
    · rfl
    · rfl
    · rfl
    · rfl
    · exact absurd ⟨by trivial, hpk⟩ h3
  · intro kind class_name title workspace floating at_pos size monitor
      app_id pid cwd pwa_key hk h1 h2 h3
    simp only [mkClientEntry]
    split_ifs with g1 g2 g3 g4
    · exact absurd h1 g1
    · exact absurd h2 g2
    · exact absurd g3.1 hk
    · exact absurd g4 (by omega)
    · rfl

/-- C7 amended witness: a PWA entry without a key is rejected, one with a
key carries a truthy key, and a terminal entry with a stray key is
accepted. -/
theorem pwa_key_forward_only_witness :
    (mkClientEntry .pwa "chromium" "t" 1 false [0, 0] [0, 0] 0
      none none none none).isOk = false ∧
    pyTruthy entryPwaGh.pwa_key = true ∧
    (mkClientEntry .terminal "foot" "t" 1 false [0, 0] [0, 0] 0
      none none none (some "gh")).isOk = true := by
  refine ⟨pwa_key_forward_only.2.1 "chromium" "t" 1 false [0, 0] [0, 0] 0
      none none none none (by decide), ?_, ?_⟩
  · exact pwa_key_forward_only.1 .pwa "chromium" "t" 1 false [0, 0] [0, 0] 0
      none none none (some "gh") entryPwaGh rfl rfl
  · exact pwa_key_forward_only.2.2 .terminal "foot" "t" 1 false [0, 0] [0, 0]
      0 none none none (some "gh") (by decide) rfl rfl (by decide)

/-- Reconstructing a valid entry from its own fields succeeds and returns
the same entry (the validation accepts exactly the `valid` entries). -/
theorem mkClientEntry_eta (e : ClientEntry) (h : e.valid = true) :
    mkClientEntry e.kind e.class_name e.title e.workspace e.floating e.«at»
      e.size e.monitor e.app_id e.pid e.cwd e.pwa_key = .ok e := by
  obtain ⟨kind, cn, ti, ws, fl, ap, sz, mon, aid, pid, cwd, pk⟩ := e
  simp only [ClientEntry.valid, Bool.and_eq_true, decide_eq_true_eq,
    Bool.not_eq_true', Bool.and_eq_false_iff, Bool.not_eq_false] at h
  have h3 : ¬ (kind = WindowKind.pwa ∧ ¬ pyTruthy pk = true) := by
    rcases h with ⟨⟨_, h3'⟩, _⟩
    rcases h3' with hc | hc
    · intro hkp
      rw [hkp.1] at hc
      simp at hc
    · intro hkp
      rw [Bool.not_eq_true] at hkp
      rw [hkp.2] at hc
      simp at hc
  simp only [mkClientEntry]
  rw [if_neg (by omega), if_neg (by omega), if_neg h3, if_neg (by omega)]

/-- Deserializing the serialization of a valid entry recovers it. -/
theorem from_dict_to_dict (e : ClientEntry) (h : e.valid = true) :
    ClientEntry.from_dict e.to_dict = .ok e := by
  have hmk := mkClientEntry_eta e h
  obtain ⟨kind, cn, ti, ws, fl, ap, sz, mon, aid, pid, cwd, pk⟩ := e
  cases aid <;> cases pid <;> cases cwd <;> cases pk <;>
    simpa only [ClientEntry.from_dict, ClientEntry.to_dict, Jobj.get,
      Jobj.reqStr, Jobj.reqInt, Jobj.reqBool, Jobj.reqIntList, Jobj.optStr,
      Jobj.optInt, WindowKind.ofStr_toStr, List.find?, List.cons_append,
      List.nil_append, String.reduceEq, Option.map_some', Option.map_none',
      bind, Except.bind, decide_True, decide_False] using hmk

/-- The serialized form never contains a JSON `null` value. -/
theorem to_dict_no_null (e : ClientEntry) :
    ∀ kv ∈ e.to_dict, kv.2 ≠ Jval.null := by
  obtain ⟨kind, cn, ti, ws, fl, ap, sz, mon, aid, pid, cwd, pk⟩ := e
  cases aid <;> cases pid <;> cases cwd <;> cases pk <;>
    (intro kv hkv
     simp only [ClientEntry.to_dict, List.cons_append, List.nil_append,
       List.mem_cons, List.not_mem_nil, or_false] at hkv
     rcases hkv with rfl | rfl | rfl | rfl | rfl | rfl | rfl | rfl | hkv <;>
       try simp
     all_goals (rcases hkv with rfl | rfl | rfl | rfl <;> simp))

/-- A key on which lookup fails occurs nowhere in the object. -/
theorem get_none_keys {d : Jobj} {k : String} (h : Jobj.get d k = none) :
    ∀ kv ∈ d, kv.1 ≠ k := by
  intro kv hkv
  simp only [Jobj.get, Option.map_eq_none'] at h
  rw [List.find?_eq_none] at h
  simpa using h kv hkv

/-- Looking up the key of an absent optional field fails: the key is
omitted from the serialized form. -/
theorem to_dict_get_absent (e : ClientEntry) :
    (e.app_id = none → Jobj.get e.to_dict "app_id" = none)
  ∧ (e.pid = none → Jobj.get e.to_dict "pid" = none)
  ∧ (e.cwd = none → Jobj.get e.to_dict "cwd" = none)
  ∧ (e.pwa_key = none → Jobj.get e.to_dict "pwa_key" = none) := by
  obtain ⟨kind, cn, ti, ws, fl, ap, sz, mon, aid, pid, cwd, pk⟩ := e
  cases aid <;> cases pid <;> cases cwd <;> cases pk <;>
    refine ⟨?_, ?_, ?_, ?_⟩ <;> intro h <;>
      first
        | exact Option.noConfusion h
        | simp only [ClientEntry.to_dict, Jobj.get, List.cons_append,
            List.nil_append, List.find?, String.reduceEq, Option.map_none',
            decide_True, decide_False]

/-- C5.  Serialization round-trip: for every valid entry, deserializing the
serialized form yields the same entry (kind tag, class identity and all
optional fields included); the serialized form has no null values, and
each absent optional field's key is omitted entirely. -/
theorem client_entry_round_trip (e : ClientEntry) (h : e.valid = true) :
    ClientEntry.from_dict e.to_dict = .ok e ∧
    (∀ kv ∈ e.to_dict, kv.2 ≠ Jval.null) ∧
    (e.app_id = none → ∀ kv ∈ e.to_dict, kv.1 ≠ "app_id") ∧
    (e.pid = none → ∀ kv ∈ e.to_dict, kv.1 ≠ "pid") ∧
    (e.cwd = none → ∀ kv ∈ e.to_dict, kv.1 ≠ "cwd") ∧
    (e.pwa_key = none → ∀ kv ∈ e.to_dict, kv.1 ≠ "pwa_key") :=
  ⟨from_dict_to_dict e h, to_dict_no_null e,
   fun ha => get_none_keys ((to_dict_get_absent e).1 ha),
   fun ha => get_none_keys ((to_dict_get_absent e).2.1 ha),
   fun ha => get_none_keys ((to_dict_get_absent e).2.2.1 ha),
   fun ha => get_none_keys ((to_dict_get_absent e).2.2.2 ha)⟩

/-- C5 witness: the round-trip and omission at a concrete valid entry. -/
theorem client_entry_round_trip_witness :
    ClientEntry.from_dict entryGood.to_dict = .ok entryGood ∧
    ("app_id", Jval.null) ∉ entryGood.to_dict :=
  ⟨(client_entry_round_trip entryGood (by decide)).1,
   fun hmem =>
     (client_entry_round_trip entryGood (by decide)).2.2.1 rfl _ hmem rfl⟩

/-- Observed window: class `foo`, title `x`, tiled. -/
def winFooX : HyprClient :=
  { cls := some "foo", title := some "x", floating := some false,
    address := some "0x1" }

/-- Observed window: class `foo`, title `y`, floating. -/
def winFooY : HyprClient :=
  { cls := some "foo", title := some "y", floating := some true,
    address := some "0x2" }

/-- Saved entry A: class `foo`, title `x`, tiled. -/
def entryFooX : ClientEntry :=
  { kind := .application, class_name := "foo", title := "x", workspace := 1,
    floating := false, «at» := [0, 0], size := [10, 10], monitor := 0 }

/-- Saved entry B: class `foo`, title `y`, floating. -/
def entryFooY : ClientEntry :=
  { kind := .application, class_name := "foo", title := "y", workspace := 1,
    floating := true, «at» := [0, 0], size := [10, 10], monitor := 0 }

/-- A restore invocation in which every step succeeds: the input file
exists, holds one valid client entry, the command map provides its launch
command (with no placeholder tokens), and the window appears at the first
poll. -/
def restoreSuccessEnv : RestoreEnv :=
  { inputExists := true, jsonLoad := .ok [entryFooX.to_dict],
    tomlPrimary := some [("apps", .table [("foo", "firefox")])],
    tomlFileExists := true, tomlLines := [], dryRun := false,
    obs := fun _ => [winFooX], home := "/root" }

/-- A save invocation in which every step succeeds: queries return one
window, and the snapshot write succeeds. -/
def saveSuccessEnv : SaveEnv :=
  { tomlPrimary := some [], tomlFileExists := true, tomlLines := [],
    clientsQ := .ok [winFooX], workspacesQ := .ok [],
    procCwd := fun _ => none, writeResult := .ok (), dryRun := false }

/-- C1.  Exit codes: on fully successful runs both commands raise the
success `typer.Exit(EX_OK)` at the end of their `try` block (third and
fourth conjuncts: the bodies complete and end in that raise), yet the
process exits `EX_SOFTWARE` — the blanket `except Exception` catches the
`Exit` and replaces it.  In fact both commands exit `EX_SOFTWARE` on every
input, so the error half of the claim holds and the success half fails. -/
theorem exit_code_success_nonzero :
    restore_session restoreSuccessEnv = EX_SOFTWARE ∧
    save_session saveSuccessEnv = EX_SOFTWARE ∧
    restoreBody restoreSuccessEnv = .error (.typerExit EX_OK) ∧
    saveBody saveSuccessEnv = .error (.typerExit EX_OK) ∧
    EX_SOFTWARE ≠ 0 ∧
    (∀ env : RestoreEnv, restore_session env = EX_SOFTWARE) ∧
    (∀ env : SaveEnv, save_session env = EX_SOFTWARE) := by
  refine ⟨rfl, rfl, rfl, rfl, by decide, ?_, ?_⟩
  · intro env
    unfold restore_session
    cases h : env.inputExists with
    | false => simp [h]
    | true =>
      simp only [h, not_true_eq_false, if_neg, Bool.true_eq_false,
        not_false_eq_true, if_false]
      cases hb : restoreBody env with
      | error e => rfl
      | ok x => exact x.elim
  · intro env
    unfold save_session
    cases hb : saveBody env with
    | error e => rfl
    | ok x => exact x.elim

/-- Terminal entry with a working directory. -/
def termEntryCwd : ClientEntry :=
  { kind := .terminal, class_name := "foot", title := "sh", workspace := 1,
    floating := false, «at» := [0, 0], size := [10, 10], monitor := 0,
    cwd := some "/home/user" }

/-- C2.  The `quote` used for placeholder substitution is
`email.quoprimime.quote`, not a shell-escape: substituting `{cwd}` for a
working directory (or `{url}` for the empty string) calls `ord` on a
multi-character (or empty) string and raises `TypeError`, so no execute
request is dispatched; even on a single character it yields the
quoted-printable escape, not a shell-escaped string. -/
theorem launch_quote_type_error :
    launch "foot --working-directory={cwd}" termEntryCwd "/root"
      = .error (.typeError "ord() expected a character, but string found") ∧
    launch "app --open {url}" termEntryCwd "/root"
      = .error (.typeError "ord() expected a character, but string found") ∧
    launch "x {cwd}" { termEntryCwd with cwd := none } "/home/user"
      = .error (.typeError "ord() expected a character, but string found") ∧
    quote "~" = .ok "=7E" ∧
    launch "firefox" termEntryCwd "/root" = .ok "firefox" := by
  exact ⟨rfl, rfl, rfl, rfl, rfl⟩

/-- Command-map file contents no parser can extract anything from. -/
def badTomlLines : List String := ["this is not toml ::", "%%%"]

/-- A restore invocation whose command map is unreadable by the primary
parser and yields nothing under the fallback, with a valid one-entry
snapshot. -/
def restoreBadTomlEnv : RestoreEnv :=
  { inputExists := true, jsonLoad := .ok [entryFooX.to_dict],
    tomlPrimary := none, tomlFileExists := true, tomlLines := badTomlLines,
    dryRun := false, obs := fun _ => [], home := "/root" }

/-- C3 counterexample: when the command-map file cannot be parsed into any
mapping (primary parser fails, fallback extracts nothing), `read_toml`
returns the empty mapping and the restore run does not abort: the body
proceeds through the launch phase (launching 0 of 1 entries), the wait and
the placement, and ends in its success-path raise. -/
theorem malformed_toml_does_not_abort :
    read_toml none true badTomlLines = [] ∧
    restoreBody restoreBadTomlEnv = .error (.typerExit EX_OK) ∧
    launch_applications_with_logging [entryFooX] [] "/root" = .ok (0, []) := by
  exact ⟨rfl, rfl, rfl⟩

/-- With an empty command map, no entry resolves to a command. -/
theorem resolveCmd_nil (e : ClientEntry) : resolveCmd e [] = .ok none := by
  simp only [resolveCmd, getSubTable, TomlMap.lookupVal, List.find?,
    Option.map_none', Option.isSome_none, Bool.false_eq_true, and_false,
    if_false]
  split_ifs <;> cases e.app_id <;>
    simp [pyTruthy, bind, Except.bind, pure, Except.pure]

/-- With an empty command map, the launch loop dispatches nothing. -/
theorem launchAppsGo_nil_map (home : String) :
    ∀ desired launched disp,
      launchAppsGo [] home desired launched disp = .ok (launched, disp.reverse) := by
  intro desired
  induction desired with
  | nil => intro launched disp; rfl
  | cons e rest ih =>
    intro launched disp
    simp only [launchAppsGo, resolveCmd_nil, bind, Except.bind]
    exact ih launched disp

/-- C3 amended.  When the primary parser fails on an existing file, the
fallback parser always yields a (possibly empty) mapping; when it extracts
nothing, a restore with a valid nonempty snapshot proceeds with the empty
mapping — launching zero applications and running the wait and placement
phases to the success-path raise — instead of aborting on the
configuration error. -/
theorem malformed_toml_restore_proceeds (lines : List String)
    (clientDicts : List Jobj) (desired : List ClientEntry)
    (obs : Nat → List HyprClient) (home : String)
    (hfb : tomlFallback lines = []) (hne : clientDicts ≠ [])
    (hparse : clientDicts.mapM ClientEntry.from_dict = .ok desired) :
    restoreBody ⟨true, .ok clientDicts, none, true, lines, false, obs, home⟩
      = .error (.typerExit EX_OK) := by
  simp only [restoreBody, read_toml, hfb, hparse, bind, Except.bind]
  rw [if_neg (by simp [List.isEmpty_iff, hne])]
  simp [hparse, launch_applications_with_logging, launchAppsGo_nil_map,
    bind, Except.bind, pure, Except.pure, throw, throwThe, MonadExceptOf.throw]

/-- C3 amended witness: the concrete malformed file and one-entry
snapshot. -/
theorem malformed_toml_restore_proceeds_witness :
    restoreBody restoreBadTomlEnv = .error (.typerExit EX_OK) :=
  malformed_toml_restore_proceeds badTomlLines [entryFooX.to_dict]
    [entryFooX] (fun _ => []) "/root" rfl (by decide) rfl

/-- The waiter's loop never runs past the deadline. -/
theorem wait_go_le (obs : Nat → List HyprClient) (desired : List ClientEntry)
    (deadline : Nat) :
    ∀ fuel t prev, t ≤ deadline →
      (wait_go obs desired deadline fuel t prev).1 ≤ deadline := by
  intro fuel
  induction fuel with
  | zero =>
    intro t prev ht
    rw [wait_go]
    dsimp only
    split_ifs <;> exact ht
  | succ f ih =>
    intro t prev ht
    rw [wait_go]
    dsimp only
    split_ifs with h1 h2
    · exact ht
    · exact ih (t + 1) (obs t) (by omega)
    · exact ht

/-- If some poll time before the deadline satisfies the target, the loop
returns no later than that poll, with a satisfying observation. -/
theorem wait_go_prompt (obs : Nat → List HyprClient)
    (desired : List ClientEntry) (deadline : Nat) :
    ∀ fuel t prev t0, t ≤ t0 → t0 < deadline →
      satisfied desired (obs t0) = true → deadline ≤ t + fuel →
      (wait_go obs desired deadline fuel t prev).1 ≤ t0 ∧
      satisfied desired (wait_go obs desired deadline fuel t prev).2 = true := by
  intro fuel
  induction fuel with
  | zero => intro t prev t0 ht0 hlt hsat hf; omega
  | succ f ih =>
    intro t prev t0 ht0 hlt hsat hf
    rw [wait_go]
    dsimp only
    rw [if_pos (by omega)]
    by_cases hs : satisfied desired (obs t) = true
    · rw [if_pos hs]
      exact ⟨ht0, hs⟩
    · rw [if_neg hs]
      have hne : t ≠ t0 := fun he => hs (he ▸ hsat)
      exact ih (t + 1) (obs t) t0 (by omega) hlt hsat (by omega)

/-- C8.  Waiter termination: when the observed windows first satisfy the
per-identity counts at a poll time `t0` before the deadline, the waiter
returns at a poll no later than `t0` with a satisfying observation (it
does not wait out the full deadline); and on every input — even when the
target is never satisfied — it returns by the deadline. -/
theorem waiter_terminates :
    (∀ (obs : Nat → List HyprClient) (desired : List ClientEntry)
        (deadline t0 : Nat),
       t0 < deadline → satisfied desired (obs t0) = true →
       (wait_for_windows obs desired deadline).1 ≤ t0 ∧
       satisfied desired (wait_for_windows obs desired deadline).2 = true)
  ∧ (∀ (obs : Nat → List HyprClient) (desired : List ClientEntry)
        (deadline : Nat),
       (wait_for_windows obs desired deadline).1 ≤ deadline) := by
  constructor
  · intro obs desired deadline t0 hlt hsat
    exact wait_go_prompt obs desired deadline deadline 0 [] t0 (Nat.zero_le _)
      hlt hsat (by omega)
  · intro obs desired deadline
    exact wait_go_le obs desired deadline deadline 0 [] (Nat.zero_le _)

/-- C8 witness: with the window present from the first poll, the waiter
returns at time 0; with no windows ever, it still returns by the
30-unit deadline. -/
theorem waiter_terminates_witness :
    (wait_for_windows (fun _ => [winFooX]) [entryFooX] 30).1 ≤ 0 ∧
    satisfied [entryFooX] (wait_for_windows (fun _ => [winFooX]) [entryFooX] 30).2
      = true ∧
    (wait_for_windows (fun _ => []) [entryFooX] 30).1 ≤ 30 := by
  refine ⟨(waiter_terminates.1 (fun _ => [winFooX]) [entryFooX] 30 0
    (by decide) (by decide)).1,
    (waiter_terminates.1 (fun _ => [winFooX]) [entryFooX] 30 0
    (by decide) (by decide)).2, waiter_terminates.2 (fun _ => []) [entryFooX] 30⟩

/-- Inserting into the sorted key list is a permutation of consing. -/
theorem insLen_perm (x : String) (l : List String) :
    List.Perm (insLen x l) (x :: l) := by
  induction l with
  | nil => exact List.Perm.refl _
  | cons y ys ih =>
    simp only [insLen]
    split_ifs with h
    · exact (ih.cons y).trans (List.Perm.swap x y ys)
    · exact List.Perm.refl _

/-- The length-descending sort permutes the key list. -/
theorem sortLenDesc_perm (l : List String) : List.Perm (sortLenDesc l) l := by
  induction l with
  | nil => exact List.Perm.refl _
  | cons x xs ih =>
    simp only [sortLenDesc]
    exact (insLen_perm x (sortLenDesc xs)).trans (ih.cons x)

/-- Insertion preserves the length-descending order. -/
theorem insLen_pairwise (x : String) (l : List String)
    (h : l.Pairwise (fun a b => b.length ≤ a.length)) :
    (insLen x l).Pairwise (fun a b => b.length ≤ a.length) := by
  induction l with
  | nil => simp [insLen]
  | cons y ys ih =>
    simp only [insLen]
    rcases List.pairwise_cons.1 h with ⟨hy, hys⟩
    split_ifs with hlt
    · refine List.pairwise_cons.2 ⟨?_, ih hys⟩
      intro b hb
      have hb' : b = x ∨ b ∈ ys := by
        simpa using (insLen_perm x ys).mem_iff.1 hb
      rcases hb' with rfl | hb'
      · omega
      · exact hy b hb'
    · refine List.pairwise_cons.2 ⟨?_, h⟩
      intro b hb
      rcases List.mem_cons.1 hb with rfl | hb'
      · omega
      · have := hy b hb'
        omega

/-- The sorted key list is length-descending. -/
theorem sortLenDesc_pairwise (l : List String) :
    (sortLenDesc l).Pairwise (fun a b => b.length ≤ a.length) := by
  induction l with
  | nil => simp [sortLenDesc]
  | cons x xs ih => exact insLen_pairwise x (sortLenDesc xs) ih

/-- In a length-descending list, the first hit of `find?` has maximal
length among all hits. -/
theorem find?_max_of_pairwise {p : String → Bool} :
    ∀ {l : List String}, l.Pairwise (fun a b => b.length ≤ a.length) →
      ∀ {k}, l.find? p = some k → ∀ k' ∈ l, p k' = true →
        k'.length ≤ k.length := by
  intro l
  induction l with
  | nil =>
    intro _ k hf
    cases hf
  | cons a as ih =>
    intro hpw k hf k' hk' hp
    rcases List.pairwise_cons.1 hpw with ⟨ha, has⟩
    by_cases hpa : p a = true
    · rw [List.find?_cons_of_pos _ hpa] at hf
      cases hf
      rcases List.mem_cons.1 hk' with rfl | hmem
      · exact Nat.le_refl _
      · exact ha k' hmem
    · rw [List.find?_cons_of_neg _ (by simpa using hpa)] at hf
      rcases List.mem_cons.1 hk' with rfl | hmem
      · exact absurd hp hpa
      · exact ih has hf k' hmem hp

/-- C9.  Web-app key resolution is longest-match-first: for a non-empty
title, a returned key belongs to the map, its lowercased form occurs in
the lowercased title, and it has maximal length among all such matching
keys; when no key is returned, no key of the map matches; a missing or
empty title yields no key. -/
theorem pwa_key_longest_match (pwaKeys : List String) (t : String)
    (ht : t ≠ "") :
    (∀ k, pwa_key_for (some t) pwaKeys = some k →
       k ∈ pwaKeys ∧ isSubChars (lowerChars k) (lowerChars t) = true ∧
       ∀ k' ∈ pwaKeys, isSubChars (lowerChars k') (lowerChars t) = true →
         k'.length ≤ k.length)
  ∧ (pwa_key_for (some t) pwaKeys = none →
       ∀ k ∈ pwaKeys, isSubChars (lowerChars k) (lowerChars t) = false)
  ∧ pwa_key_for none pwaKeys = none
  ∧ pwa_key_for (some "") pwaKeys = none := by
  refine ⟨?_, ?_, rfl, ?_⟩
  · intro k hk
    simp only [pwa_key_for] at hk
    rw [if_neg ht] at hk
    refine ⟨(sortLenDesc_perm pwaKeys).mem_iff.1 (List.mem_of_find?_eq_some hk),
      by simpa using List.find?_some hk, ?_⟩
    intro k' hk' hp
    exact find?_max_of_pairwise (sortLenDesc_pairwise pwaKeys) hk k'
      ((sortLenDesc_perm pwaKeys).mem_iff.2 hk') hp
  · intro hnone k hkmem
    simp only [pwa_key_for] at hnone
    rw [if_neg ht] at hnone
    have := List.find?_eq_none.1 hnone k
      ((sortLenDesc_perm pwaKeys).mem_iff.2 hkmem)
    simpa using this
  · simp [pwa_key_for]

/-- C9 witness: with keys `mail` and `mail-beta` and a title containing
`mail-beta`, resolution returns `mail-beta`, which matches and has
maximal length (in particular at least that of `mail`). -/
theorem pwa_key_longest_match_witness :
    pwa_key_for (some "my mail-beta tab") ["mail", "mail-beta"]
      = some "mail-beta" ∧
    "mail-beta" ∈ ["mail", "mail-beta"] ∧
    isSubChars (lowerChars "mail-beta") (lowerChars "my mail-beta tab")
      = true ∧
    String.length "mail" ≤ String.length "mail-beta" := by
  have h := (pwa_key_longest_match ["mail", "mail-beta"] "my mail-beta tab"
    (by decide)).1 "mail-beta" (by decide)
  exact ⟨by decide, h.1, h.2.1, h.2.2 "mail" (by decide) (by decide)⟩

/-- Invariant of the scoring loop of `match_window` after processing the
first `i` windows: a `none` accumulator means the score is still `-1` and
no processed window was an unclaimed identity match; a `some (j, c)`
accumulator is an unclaimed identity match at position `j < i` whose score
is the accumulator score, maximal among processed candidates, and `j` is
the first processed position attaining it. -/
def MwInv (e : ClientEntry) (key : String) (unmatched : List Nat)
    (now : List HyprClient) (i : Nat)
    (acc : Option (Nat × HyprClient) × Int) : Prop :=
  (acc.1 = none → acc.2 = -1 ∧
    ∀ k, ∀ hk : k < now.length, k < i →
      ¬(k ∈ unmatched ∧ candKey (now.get ⟨k, hk⟩) = some key))
  ∧ (∀ j c, acc.1 = some (j, c) →
      ∃ hj : j < now.length, j < i ∧ now.get ⟨j, hj⟩ = c ∧ j ∈ unmatched ∧
        candKey c = some key ∧ acc.2 = (score e c : Int) ∧
        (∀ k, ∀ hk : k < now.length, k < i → k ∈ unmatched →
          candKey (now.get ⟨k, hk⟩) = some key →
          (score e (now.get ⟨k, hk⟩) : Int) ≤ acc.2) ∧
        (∀ k, ∀ hk : k < now.length, k < i → k ∈ unmatched →
          candKey (now.get ⟨k, hk⟩) = some key →
          score e (now.get ⟨k, hk⟩) = score e c → j ≤ k))

/-- Restriction of the loop invariant to the whole list once the index has
passed the end. -/
theorem MwInv_final {e key unmatched now i acc}
    (hle : now.length ≤ i) (h : MwInv e key unmatched now i acc) :
    MwInv e key unmatched now now.length acc := by
  obtain ⟨h1, h2⟩ := h
  constructor
  · intro hb
    obtain ⟨hs, hk⟩ := h1 hb
    exact ⟨hs, fun k hk' hki => hk k hk' (by omega)⟩
  · intro j c hb
    obtain ⟨hj, hji, hget, hmem, hck, hsc, hmax, hstab⟩ := h2 j c hb
    exact ⟨hj, by omega, hget, hmem, hck, hsc,
      fun k hk hki hm hc => hmax k hk (by omega) hm hc,
      fun k hk hki hm hc hs => hstab k hk (by omega) hm hc hs⟩

/-- The base score of any identity-matching candidate is at least 1. -/
theorem one_le_score (e : ClientEntry) (c : HyprClient) : 1 ≤ score e c := by
  simp only [score]
  omega

/-- Running the scoring loop from index `i` with an invariant-satisfying
accumulator yields an invariant-satisfying result over the whole list. -/
theorem mwLoop_invariant (e : ClientEntry) (key : String)
    (unmatched : List Nat) (now : List HyprClient) :
    ∀ (l : List HyprClient) (i : Nat), now.drop i = l →
      ∀ b s, MwInv e key unmatched now i (b, s) →
        MwInv e key unmatched now now.length
          (mwLoop e key unmatched i l (b, s)) := by
  intro l
  induction l with
  | nil =>
    intro i hdrop b s hinv
    simp only [mwLoop]
    exact MwInv_final (List.drop_eq_nil_iff.1 hdrop) hinv
  | cons c rest ih =>
    intro i hdrop b s hinv
    have hlen : i < now.length := by
      by_contra hge
      rw [List.drop_eq_nil_iff.2 (by omega)] at hdrop
      cases hdrop
    have hdc := List.drop_eq_getElem_cons hlen
    rw [hdrop] at hdc
    injection hdc with hd1 hd2
    have hc : now.get ⟨i, hlen⟩ = c := by
      simpa [List.get_eq_getElem] using hd1.symm
    have hrest : now.drop (i + 1) = rest := hd2.symm
    simp only [mwLoop]
    by_cases hmem : i ∈ unmatched
    · rw [if_pos hmem]
      by_cases hck : candKey c = some key
      · rw [if_pos hck]
        by_cases hscore : s < (score e c : Int)
        · rw [if_pos hscore]
          refine ih (i + 1) hrest (some (i, c)) (score e c) ⟨?_, ?_⟩
          · intro hb
            cases hb
          · intro j c' hb
            injection hb with hb'
            injection hb' with hb1 hb2
            subst hb1
            subst hb2
            refine ⟨hlen, by omega, hc, hmem, hck, rfl, ?_, ?_⟩
            · intro k hk hki hkm hkc
              by_cases hik : k = i
              · subst hik
                rw [hc]
              · have hki' : k < i := by omega
                cases hbb : b with
                | none =>
                  exact absurd ⟨hkm, hkc⟩ ((hinv.1 (by rw [hbb])).2 k hk hki')
                | some jc =>
                  obtain ⟨j0, c0⟩ := jc
                  obtain ⟨_, _, _, _, _, _, hmax, _⟩ :=
                    hinv.2 j0 c0 (by rw [hbb])
                  have := hmax k hk hki' hkm hkc
                  omega
            · intro k hk hki hkm hkc hks
              by_cases hik : k = i
              · omega
              · have hki' : k < i := by omega
                cases hbb : b with
                | none =>
                  exact absurd ⟨hkm, hkc⟩ ((hinv.1 (by rw [hbb])).2 k hk hki')
                | some jc =>
                  obtain ⟨j0, c0⟩ := jc
                  obtain ⟨_, _, _, _, _, _, hmax, _⟩ :=
                    hinv.2 j0 c0 (by rw [hbb])
                  have := hmax k hk hki' hkm hkc
                  rw [hks] at this
                  omega
        · rw [if_neg hscore]
          cases hbb : b with
          | none =>
            have hs := (hinv.1 (by rw [hbb])).1
            have h1 := one_le_score e c
            subst hs
            omega
          | some jc =>
            obtain ⟨j0, c0⟩ := jc
            refine ih (i + 1) hrest (some (j0, c0)) s ⟨?_, ?_⟩
            · intro hb
              cases hb
            · intro j c' hb
              injection hb with hb'
              injection hb' with hb1 hb2
              subst hb1
              subst hb2
              obtain ⟨hj, hji, hget, hjm, hjc, hsc, hmax, hstab⟩ :=
                hinv.2 j0 c0 (by rw [hbb])
              refine ⟨hj, by omega, hget, hjm, hjc, hsc, ?_, ?_⟩
              · intro k hk hki hkm hkc
                by_cases hik : k = i
                · subst hik
                  rw [hc]
                  omega
                · exact hmax k hk (by omega) hkm hkc
              · intro k hk hki hkm hkc hks
                by_cases hik : k = i
                · omega
                · exact hstab k hk (by omega) hkm hkc hks
      · rw [if_neg hck]
        refine ih (i + 1) hrest b s ⟨?_, ?_⟩
        · intro hb
          obtain ⟨hs, hall⟩ := hinv.1 hb
          refine ⟨hs, ?_⟩
          intro k hk hki
          by_cases hik : k = i
          · subst hik
            rw [hc]
            exact fun hcon => hck hcon.2
          · exact hall k hk (by omega)
        · intro j c' hb
          obtain ⟨hj, hji, hget, hjm, hjc, hsc, hmax, hstab⟩ :=
            hinv.2 j c' hb
          refine ⟨hj, by omega, hget, hjm, hjc, hsc, ?_, ?_⟩
          · intro k hk hki hkm hkc
            by_cases hik : k = i
            · subst hik
              rw [hc] at hkc
              exact absurd hkc hck
            · exact hmax k hk (by omega) hkm hkc
          · intro k hk hki hkm hkc hks
            by_cases hik : k = i
            · subst hik
              rw [hc] at hkc
              exact absurd hkc hck
            · exact hstab k hk (by omega) hkm hkc hks
    · rw [if_neg hmem]
      refine ih (i + 1) hrest b s ⟨?_, ?_⟩
      · intro hb
        obtain ⟨hs, hall⟩ := hinv.1 hb
        refine ⟨hs, ?_⟩
        intro k hk hki
        by_cases hik : k = i
        · subst hik
          exact fun hcon => hmem hcon.1
        · exact hall k hk (by omega)
      · intro j c' hb
        obtain ⟨hj, hji, hget, hjm, hjc, hsc, hmax, hstab⟩ :=
          hinv.2 j c' hb
        refine ⟨hj, by omega, hget, hjm, hjc, hsc, ?_, ?_⟩
        · intro k hk hki hkm hkc
          by_cases hik : k = i
          · subst hik
            exact absurd hkm hmem
          · exact hmax k hk (by omega) hkm hkc
        · intro k hk hki hkm hkc hks
          by_cases hik : k = i
          · subst hik
            exact absurd hkm hmem
          · exact hstab k hk (by omega) hkm hkc hks

/-- Any result of the fallback loop is an unclaimed identity match taken
from the observed list. -/
theorem mwFallback_spec (key : String) (unmatched : List Nat)
    (now : List HyprClient) :
    ∀ (l : List HyprClient) (i j : Nat) (c : HyprClient), now.drop i = l →
      mwFallback key unmatched i l = some (j, c) →
      ∃ hj : j < now.length, now.get ⟨j, hj⟩ = c ∧ j ∈ unmatched ∧
        candKey c = some key := by
  intro l
  induction l with
  | nil =>
    intro i j c _ hf
    cases hf
  | cons c' rest ih =>
    intro i j c hdrop hf
    have hlen : i < now.length := by
      by_contra hge
      rw [List.drop_eq_nil_iff.2 (by omega)] at hdrop
      cases hdrop
    have hdc := List.drop_eq_getElem_cons hlen
    rw [hdrop] at hdc
    injection hdc with hd1 hd2
    have hc : now.get ⟨i, hlen⟩ = c' := by
      simpa [List.get_eq_getElem] using hd1.symm
    simp only [mwFallback] at hf
    split_ifs at hf with hcond
    · injection hf with hf'
      injection hf' with hf1 hf2
      subst hf1
      subst hf2
      exact ⟨hlen, hc, hcond.1, hcond.2⟩
    · exact ih (i + 1) j c hd2.symm hf

/-- Specification of `match_window`: a returned pair is an unclaimed
window of the observed list sharing the entry's identity key, its score is
maximal among all unclaimed identity-sharing candidates, and its index is
the least among those attaining that score (ties keep the first-seen
candidate). -/
theorem match_window_spec (e : ClientEntry) (now : List HyprClient)
    (unmatched : List Nat) (j : Nat) (c : HyprClient)
    (h : match_window e now unmatched = some (j, c)) :
    ∃ hj : j < now.length, now.get ⟨j, hj⟩ = c ∧ j ∈ unmatched ∧
      candKey c = some (best_key e) ∧
      (∀ k, ∀ hk : k < now.length, k ∈ unmatched →
        candKey (now.get ⟨k, hk⟩) = some (best_key e) →
        score e (now.get ⟨k, hk⟩) ≤ score e c) ∧
      (∀ k, ∀ hk : k < now.length, k ∈ unmatched →
        candKey (now.get ⟨k, hk⟩) = some (best_key e) →
        score e (now.get ⟨k, hk⟩) = score e c → j ≤ k) := by
  have hinv0 : MwInv e (best_key e) unmatched now 0 (none, -1) := by
    constructor
    · intro _
      exact ⟨rfl, fun k hk hki => absurd hki (by omega)⟩
    · intro j' c' hb
      cases hb
  have hfin := mwLoop_invariant e (best_key e) unmatched now now 0
    (List.drop_zero now) (none) (-1) hinv0
  unfold match_window at h
  dsimp only at h
  rcases hr : mwLoop e (best_key e) unmatched 0 now (none, -1) with ⟨b', s'⟩
  rw [hr] at h hfin
  cases b' with
  | some jc =>
    obtain ⟨j', c'⟩ := jc
    dsimp only at h
    injection h with h'
    injection h' with h1 h2
    subst h1
    subst h2
    obtain ⟨hj, _, hget, hjm, hjc, hsc, hmax, hstab⟩ := hfin.2 _ _ rfl
    refine ⟨hj, hget, hjm, hjc, ?_, ?_⟩
    · intro k hk hkm hkc
      have hm := hmax k hk hk hkm hkc
      rw [hsc] at hm
      omega
    · intro k hk hkm hkc hks
      exact hstab k hk hk hkm hkc hks
  | none =>
    dsimp only at h
    have hfb := mwFallback_spec (best_key e) unmatched now now 0 j c
      (List.drop_zero now) h
    obtain ⟨hj, hget, hjm, hjc⟩ := hfb
    have := (hfin.1 rfl).2 j hj hj
    rw [hget] at this
    exact (this ⟨hjm, hjc⟩).elim

/-- Invariant of the placement loop: the claimed indices are pairwise
distinct window indices, disjoint from the unclaimed set, the placed count
equals their number, and it grows by at most one per entry. -/
theorem placeGo_invariant (now : List HyprClient) :
    ∀ (ents : List ClientEntry) (u : List Nat) (placed : Nat)
      (claimed : List Nat),
      claimed.Nodup → (∀ x ∈ claimed, x < now.length) →
      (∀ x ∈ claimed, x ∉ u) → placed = claimed.length →
      ∀ p' u' cl', placeGo now ents u placed claimed = (p', u', cl') →
        p' = cl'.length ∧ cl'.Nodup ∧ (∀ x ∈ cl', x < now.length) ∧
          p' ≤ placed + ents.length := by
  intro ents
  induction ents with
  | nil =>
    intro u placed claimed hnd hlt hdisj hp p' u' cl' heq
    simp only [placeGo] at heq
    injection heq with e1 e2
    injection e2 with e2 e3
    subst e1
    subst e3
    refine ⟨by simpa using hp, by simpa using hnd, ?_, by omega⟩
    intro x hx
    exact hlt x (List.mem_reverse.1 hx)
  | cons e rest ih =>
    intro u placed claimed hnd hlt hdisj hp p' u' cl' heq
    cases hm : match_window e now u with
    | none =>
      rw [placeGo, hm] at heq
      have := ih u placed claimed hnd hlt hdisj hp p' u' cl' heq
      refine ⟨this.1, this.2.1, this.2.2.1, ?_⟩
      have := this.2.2.2
      simp only [List.length_cons]
      omega
    | some jc =>
      obtain ⟨idx, c⟩ := jc
      rw [placeGo, hm] at heq
      obtain ⟨hj, _, hjm, _⟩ := match_window_spec e now u idx c hm
      have hnotin : idx ∉ claimed := fun hin => hdisj idx hin hjm
      have hnd' : (idx :: claimed).Nodup := List.nodup_cons.2 ⟨hnotin, hnd⟩
      have hlt' : ∀ x ∈ idx :: claimed, x < now.length := by
        intro x hx
        rcases List.mem_cons.1 hx with rfl | hx'
        · exact hj
        · exact hlt x hx'
      have hdisj' : ∀ x ∈ idx :: claimed,
          x ∉ u.filter (fun j => j ≠ idx) := by
        intro x hx hxin
        rcases List.mem_filter.1 hxin with ⟨hxu, hxne⟩
        rcases List.mem_cons.1 hx with rfl | hx'
        · simp at hxne
        · exact hdisj x hx' hxu
      have := ih (u.filter (fun j => j ≠ idx)) (placed + 1) (idx :: claimed)
        hnd' hlt' hdisj' (by simp [hp]) p' u' cl' heq
      refine ⟨this.1, this.2.1, this.2.2.1, ?_⟩
      have := this.2.2.2
      simp only [List.length_cons]
      omega

/-- A duplicate-free list of indices below `n` has at most `n` elements. -/
theorem nodup_bounded_length {l : List Nat} {n : Nat} (hnd : l.Nodup)
    (hlt : ∀ x ∈ l, x < n) : l.length ≤ n := by
  have hsub : l ⊆ List.range n := fun x hx => List.mem_range.2 (hlt x hx)
  have := (List.subperm_of_subset hnd hsub).length_le
  simpa using this

/-- C4.  Matcher scoring: any window returned by `match_window` is an
unclaimed candidate sharing the entry's identity key whose score (base 1,
+2 for a mutual case-insensitive title containment with both titles
non-empty, +1 for an equal floating flag) is maximal among all unclaimed
identity-sharing candidates, ties keeping the first-seen candidate; on the
spec's example the scores are 4 against 1, so A is paired with W1 and B
with W2 — never A with W2 — and the full placement pass claims exactly
windows 0 and 1 in that order. -/
theorem matcher_scoring :
    (∀ (e : ClientEntry) (now : List HyprClient) (unmatched : List Nat)
        (j : Nat) (c : HyprClient),
       match_window e now unmatched = some (j, c) →
       ∃ hj : j < now.length, now.get ⟨j, hj⟩ = c ∧ j ∈ unmatched ∧
         candKey c = some (best_key e) ∧
         (∀ k, ∀ hk : k < now.length, k ∈ unmatched →
           candKey (now.get ⟨k, hk⟩) = some (best_key e) →
           score e (now.get ⟨k, hk⟩) ≤ score e c) ∧
         (∀ k, ∀ hk : k < now.length, k ∈ unmatched →
           candKey (now.get ⟨k, hk⟩) = some (best_key e) →
           score e (now.get ⟨k, hk⟩) = score e c → j ≤ k))
  ∧ score entryFooX winFooX = 4 ∧ score entryFooX winFooY = 1
  ∧ score entryFooY winFooY = 4 ∧ score entryFooY winFooX = 1
  ∧ match_window entryFooX [winFooX, winFooY] [0, 1] = some (0, winFooX)
  ∧ match_window entryFooY [winFooX, winFooY] [1] = some (1, winFooY)
  ∧ place_trace [entryFooX, entryFooY] [winFooX, winFooY] = (2, [], [0, 1]) :=
  ⟨match_window_spec, rfl, rfl, rfl, rfl, rfl, rfl, rfl⟩

/-- C4 witness: the general part instantiated on the example — entry A
matched to window W1, whose score dominates the unclaimed alternative W2. -/
theorem matcher_scoring_witness :
    score entryFooX winFooY ≤ score entryFooX winFooX := by
  obtain ⟨hj, _, _, _, hmax, _⟩ :=
    matcher_scoring.1 entryFooX [winFooX, winFooY] [0, 1] 0 winFooX rfl
  exact hmax 1 (by decide) (by decide) rfl

/-- C10.  Placement assignment is injective: over one `place_windows` run
the claimed window indices are pairwise distinct valid indices, the placed
count is their number and so never exceeds the number of observed windows
nor the number of saved entries; and every `match_window` result is an
index still in the unclaimed set, which is removed before the next entry
is processed (the claimed indices are disjoint from the final unclaimed
set). -/
theorem placement_injective :
    (∀ (desired : List ClientEntry) (now : List HyprClient),
       (place_trace desired now).2.2.Nodup ∧
       (∀ x ∈ (place_trace desired now).2.2, x < now.length) ∧
       place_windows desired now = (place_trace desired now).2.2.length ∧
       place_windows desired now ≤ now.length ∧
       place_windows desired now ≤ desired.length)
  ∧ (∀ (e : ClientEntry) (now : List HyprClient) (u : List Nat)
        (j : Nat) (c : HyprClient),
       match_window e now u = some (j, c) → j ∈ u ∧ j < now.length) := by
  constructor
  · intro desired now
    rcases heq : place_trace desired now with ⟨p', u', cl'⟩
    have hbase := placeGo_invariant now desired (List.range now.length) 0 []
      (List.nodup_nil) (by simp) (by simp) rfl p' u' cl' heq
    have hple : p' ≤ now.length := by
      rw [hbase.1]
      exact nodup_bounded_length hbase.2.1 hbase.2.2.1
    refine ⟨?_, ?_, ?_, ?_, ?_⟩ <;>
      simp only [place_windows, heq] <;>
      first
        | exact hbase.2.1
        | exact hbase.2.2.1
        | exact hbase.1
        | exact hple
        | (have hb := hbase.2.2.2; omega)
  · intro e now u j c hm
    obtain ⟨hj, _, hjm, _⟩ := match_window_spec e now u j c hm
    exact ⟨hjm, hj⟩

/-- C10 witness: with two saved entries and a single observed window, only
one entry is placed, and the match for the first entry is the unclaimed
index 0. -/
theorem placement_injective_witness :
    place_windows [entryFooX, entryFooY] [winFooX] ≤ 1 ∧
    (0 ∈ ([0] : List Nat) ∧ 0 < ([winFooX] : List HyprClient).length) := by
  refine ⟨?_, ?_⟩
  · have h := (placement_injective.1 [entryFooX, entryFooY] [winFooX]).2.2.2.1
    simpa using h
  · exact placement_injective.2 entryFooX [winFooX] [0] 0 winFooX rfl
